import Mathlib

/-!
Verification of the duplicate-detection engine of the `file_manager_system`
repository against its natural-language specification.

The development shallowly embeds the relevant Python source:

* `backend/file_repository/duplicate_check/checker/video/utils/video_comparison_util.py`
  (`VideoComparisonUtil.calculate_max_similarity`),
* `backend/file_repository/duplicate_check/checker/md5_checker.py` (`MD5Checker`),
* `backend/file_repository/duplicate_check/checker/image_checker.py` (`ImageChecker`),
* `backend/file_repository/duplicate_check/checker/video/utils/video_similarity_Tree.py`
  (`VideoSimilarityTree`).

Perceptual hashes (`imagehash.ImageHash` values) are modelled as natural
numbers viewed as bit vectors; `ImageHash.__sub__` (the Hamming distance,
i.e. the number of differing bits) is `phashDist`.  Python floats are
modelled as exact rationals (`ℚ`); all the similarity arithmetic performed
by the engine is of the form `count / length` with small integer inputs.
Python dictionaries are modelled as insertion-ordered association lists,
matching the iteration order the source relies on.
-/

/-- Bit-level helper for `phashDist`: counts positions where the binary
expansions of `a` and `b` differ, recursing on halves with explicit fuel
(the fuel `a + b` always suffices since a number `n` has at most `n` bits). -/
def hammingAux : Nat → Nat → Nat → Nat
  | 0, _, _ => 0
  | fuel + 1, a, b =>
      if a = 0 ∧ b = 0 then 0
      else (if a % 2 = b % 2 then 0 else 1) + hammingAux fuel (a / 2) (b / 2)

/-- Hamming distance between two perceptual hashes (number of differing bits);
models `imagehash.ImageHash.__sub__` (`h1 - h2` in the Python source). -/
def phashDist (a b : Nat) : Nat := hammingAux (a + b) a b

/-- Number of aligned pairs of `window` and `short_h` whose Hamming distance is
strictly below `similar_distance`; models
`sum(1 for h1, h2 in zip(window, short_h) if (h1 - h2) < similar_distance)`
in `VideoComparisonUtil.calculate_max_similarity`. -/
def simCount (window short_h : List Nat) (similar_distance : Nat) : Nat :=
  (window.zip short_h).countP (fun p => phashDist p.1 p.2 < similar_distance)

/-- The sliding-window loop of `VideoComparisonUtil.calculate_max_similarity`:
iterates over the remaining window offsets, keeping the running maximum
`max_rate` and breaking out early once `max_rate >= 1.0`
(`for i in range(long_len - short_len + 1): ...`). -/
def slideLoop (long_h short_h : List Nat) (similar_distance : Nat) :
    List Nat → ℚ → ℚ
  | [], max_rate => max_rate
  | i :: rest, max_rate =>
      let window := (long_h.drop i).take short_h.length
      let similar_count := simCount window short_h similar_distance
      let current_rate : ℚ := (similar_count : ℚ) / (short_h.length : ℚ)
      let max_rate' := if max_rate < current_rate then current_rate else max_rate
      if 1 ≤ max_rate' then max_rate'
      else slideLoop long_h short_h similar_distance rest max_rate'

/-- `VideoComparisonUtil.calculate_max_similarity`: maximum fragment-match rate
between two (parsed) perceptual-hash sequences.  Returns `0.0` when either
sequence is empty; otherwise slides a window of the shorter sequence's length
across the longer sequence. -/
def calculate_max_similarity (hashes1 hashes2 : List Nat)
    (similar_distance : Nat) : ℚ :=
  if hashes1 = [] ∨ hashes2 = [] then 0
  else
    let long_h := if hashes2.length ≤ hashes1.length then hashes1 else hashes2
    let short_h := if hashes2.length ≤ hashes1.length then hashes2 else hashes1
    slideLoop long_h short_h similar_distance
      (List.range (long_h.length - short_h.length + 1)) 0

/-- Match count of the window at offset `i`, stated the way the specification
describes it: the number of positions `j` with
`hamming(long[i+j], short[j]) < threshold`. -/
def window_match_count (long_h short_h : List Nat) (threshold i : Nat) : Nat :=
  ((List.range short_h.length).filter
    (fun j => phashDist (long_h.getD (i + j) 0) (short_h.getD j 0)
      < threshold)).length

/-- Match rate of the window at offset `i`: `window_match_count / short.len()`. -/
def window_rate (long_h short_h : List Nat) (threshold i : Nat) : ℚ :=
  (window_match_count long_h short_h threshold i : ℚ) / (short_h.length : ℚ)

/-! ### Basic facts about the Hamming distance model -/

theorem hammingAux_comm (fuel : Nat) : ∀ a b, hammingAux fuel a b = hammingAux fuel b a := by
  induction fuel with
  | zero => intro a b; rfl
  | succ n ih =>
      intro a b
      have h1 : (a = 0 ∧ b = 0) ↔ (b = 0 ∧ a = 0) := and_comm
      have h2 : (a % 2 = b % 2) ↔ (b % 2 = a % 2) := eq_comm
      simp only [hammingAux, ih (a / 2) (b / 2)]
      rw [if_congr h1 rfl rfl, if_congr h2 rfl rfl]

theorem phashDist_comm (a b : Nat) : phashDist a b = phashDist b a := by
  unfold phashDist
  rw [Nat.add_comm, hammingAux_comm]

theorem hammingAux_eq_zero (fuel : Nat) : ∀ a b, a + b ≤ fuel →
    hammingAux fuel a b = 0 → a = b := by
  induction fuel with
  | zero => intro a b hab _; omega
  | succ n ih =>
      intro a b hab h
      rw [hammingAux] at h
      by_cases hz : a = 0 ∧ b = 0
      · omega
      · rw [if_neg hz] at h
        have hmod : a % 2 = b % 2 := by
          by_contra hne
          rw [if_neg hne] at h
          omega
        rw [if_pos hmod] at h
        have hdiv : a / 2 = b / 2 := ih (a / 2) (b / 2) (by omega) (by omega)
        omega

theorem phashDist_eq_zero {a b : Nat} (h : phashDist a b = 0) : a = b :=
  hammingAux_eq_zero (a + b) a b le_rfl h

/-! ### Generic facts about `List.foldl max` -/

theorem le_foldl_max {α : Type} [LinearOrder α] (l : List α) (a : α) :
    a ≤ l.foldl max a := by
  induction l generalizing a with
  | nil => exact le_rfl
  | cons x xs ih => exact le_trans (le_max_left a x) (ih (max a x))

theorem mem_le_foldl_max {α : Type} [LinearOrder α] (l : List α) (a : α) :
    ∀ x ∈ l, x ≤ l.foldl max a := by
  induction l generalizing a with
  | nil => intro x hx; cases hx
  | cons y ys ih =>
      intro x hx
      rcases List.mem_cons.mp hx with h | h
      · subst h; exact le_trans (le_max_right a x) (le_foldl_max ys (max a x))
      · exact ih (max a y) x h

theorem foldl_max_le {α : Type} [LinearOrder α] (l : List α) (a b : α)
    (ha : a ≤ b) (hl : ∀ x ∈ l, x ≤ b) : l.foldl max a ≤ b := by
  induction l generalizing a with
  | nil => exact ha
  | cons x xs ih =>
      exact ih (max a x) (max_le ha (hl x (List.mem_cons_self x xs)))
        (fun y hy => hl y (List.mem_cons_of_mem x hy))

theorem foldl_max_eq_init_or_mem {α : Type} [LinearOrder α] (l : List α) (a : α) :
    l.foldl max a = a ∨ l.foldl max a ∈ l := by
  induction l generalizing a with
  | nil => exact Or.inl rfl
  | cons x xs ih =>
      rcases ih (max a x) with h | h
      · rcases le_total a x with hax | hxa
        · right
          rw [List.foldl_cons, h, max_eq_right hax]
          exact List.mem_cons_self x xs
        · left
          rw [List.foldl_cons, h, max_eq_left hxa]
      · exact Or.inr (List.mem_cons_of_mem x h)

theorem foldl_max_map_mono {α : Type} (l : List α) (f g : α → ℚ)
    (h : ∀ i ∈ l, f i ≤ g i) : ∀ a b, a ≤ b →
    (l.map f).foldl max a ≤ (l.map g).foldl max b := by
  induction l with
  | nil => intro a b hab; exact hab
  | cons x xs ih =>
      intro a b hab
      exact ih (fun i hi => h i (List.mem_cons_of_mem x hi)) (max a (f x)) (max b (g x))
        (max_le_max hab (h x (List.mem_cons_self x xs)))

/-! ### The sliding-window loop computes a running maximum -/

/-- The window match rate the source computes at offset `i`
(`simCount` of the zipped window, divided by the short length). -/
def code_rate (long_h short_h : List Nat) (similar_distance i : Nat) : ℚ :=
  (simCount ((long_h.drop i).take short_h.length) short_h similar_distance : ℚ)
    / (short_h.length : ℚ)

theorem simCount_le_length (w s : List Nat) (d : Nat) :
    simCount w s d ≤ s.length := by
  unfold simCount
  exact le_trans (List.countP_le_length _)
    (by rw [List.length_zip]; exact min_le_right _ _)

theorem code_rate_nonneg (long_h short_h : List Nat) (d i : Nat) :
    0 ≤ code_rate long_h short_h d i := by
  unfold code_rate
  positivity

theorem code_rate_le_one (long_h short_h : List Nat) (d i : Nat) :
    code_rate long_h short_h d i ≤ 1 := by
  unfold code_rate
  rcases Nat.eq_zero_or_pos short_h.length with h0 | hpos
  · rw [h0]; norm_num
  · rw [div_le_one (by exact_mod_cast hpos)]
    exact_mod_cast simCount_le_length _ _ _

theorem slideLoop_eq_foldl (long_h short_h : List Nat) (d : Nat) :
    ∀ (l : List Nat) (m : ℚ),
    slideLoop long_h short_h d l m
      = (l.map (code_rate long_h short_h d)).foldl max m := by
  intro l
  induction l with
  | nil => intro m; rfl
  | cons i rest ih =>
      intro m
      rw [slideLoop]
      have hmax : (if m < code_rate long_h short_h d i
          then code_rate long_h short_h d i else m)
          = max m (code_rate long_h short_h d i) := by
        rcases lt_or_le m (code_rate long_h short_h d i) with h | h
        · rw [if_pos h, max_eq_right (le_of_lt h)]
        · rw [if_neg (not_lt.mpr h), max_eq_left h]
      rw [List.map_cons, List.foldl_cons]
      by_cases hbreak : (1 : ℚ) ≤ max m (code_rate long_h short_h d i)
      · rw [show (simCount ((long_h.drop i).take short_h.length) short_h d : ℚ)
              / (short_h.length : ℚ) = code_rate long_h short_h d i from rfl,
            hmax, if_pos hbreak]
        exact le_antisymm
          (le_foldl_max _ _)
          (foldl_max_le _ _ _ le_rfl (by
            intro x hx
            rcases List.mem_map.mp hx with ⟨j, _, rfl⟩
            exact le_trans (code_rate_le_one long_h short_h d j) hbreak))
      · rw [show (simCount ((long_h.drop i).take short_h.length) short_h d : ℚ)
              / (short_h.length : ℚ) = code_rate long_h short_h d i from rfl,
            hmax, if_neg hbreak, ih]

/-! ### Bridging the source's zipped-window count with the spec's indexed count -/

theorem countP_zip_eq_range (p : Nat → Nat → Bool) :
    ∀ (ys xs : List Nat), ys.length ≤ xs.length →
    (xs.zip ys).countP (fun q => p q.1 q.2)
      = ((List.range ys.length).filter
          (fun j => p (xs.getD j 0) (ys.getD j 0))).length := by
  intro ys
  induction ys with
  | nil => intro xs _; simp
  | cons y ys' ih =>
      intro xs hlen
      cases xs with
      | nil => simp at hlen
      | cons x xs' =>
          simp only [List.length_cons] at hlen
          rw [List.zip_cons_cons, List.countP_cons, List.length_cons,
            List.range_succ_eq_map, List.filter_cons]
          have hcomp :
              List.filter ((fun j => p ((x :: xs').getD j 0) ((y :: ys').getD j 0))
                  ∘ Nat.succ) (List.range ys'.length)
                = List.filter (fun j => p (xs'.getD j 0) (ys'.getD j 0))
                  (List.range ys'.length) := by
            apply List.filter_congr
            intro j _
            simp [Function.comp, Nat.succ_eq_add_one]
          have ihx := ih xs' (by omega)
          by_cases hp : p x y
          · simp only [List.getD_cons_zero, hp, if_true, List.filter_map, hcomp,
              List.length_cons, List.length_map]
            omega
          · simp only [List.getD_cons_zero, hp, Bool.false_eq_true, if_false,
              List.filter_map, hcomp, List.length_map]
            omega

theorem window_rate_nonneg (long_h short_h : List Nat) (t i : Nat) :
    0 ≤ window_rate long_h short_h t i := by
  unfold window_rate
  positivity

theorem code_rate_eq_window_rate (long_h short_h : List Nat) (d i : Nat)
    (h : i + short_h.length ≤ long_h.length) :
    code_rate long_h short_h d i = window_rate long_h short_h d i := by
  unfold code_rate window_rate window_match_count
  congr 2
  unfold simCount
  have hlen : short_h.length ≤ ((long_h.drop i).take short_h.length).length := by
    rw [List.length_take, List.length_drop]
    omega
  rw [countP_zip_eq_range (fun u v => decide (phashDist u v < d)) short_h _ hlen]
  apply congrArg
  apply List.filter_congr
  intro j hj
  have hjlt : j < short_h.length := List.mem_range.mp hj
  have hget : ((long_h.drop i).take short_h.length).getD j 0 = long_h.getD (i + j) 0 := by
    rw [List.getD_eq_getElem?_getD, List.getD_eq_getElem?_getD,
      List.getElem?_take, if_pos hjlt, List.getElem?_drop]
  rw [hget]

/-- The longer of the two input sequences, resolving ties the way the source
does (`long_h, short_h = (hashes1, hashes2) if len(hashes1) >= len(hashes2)
else (hashes2, hashes1)`). -/
def long_of (hashes1 hashes2 : List Nat) : List Nat :=
  if hashes2.length ≤ hashes1.length then hashes1 else hashes2

/-- The shorter of the two input sequences (same tie-breaking as `long_of`). -/
def short_of (hashes1 hashes2 : List Nat) : List Nat :=
  if hashes2.length ≤ hashes1.length then hashes2 else hashes1

theorem short_le_long (hashes1 hashes2 : List Nat) :
    (short_of hashes1 hashes2).length ≤ (long_of hashes1 hashes2).length := by
  unfold long_of short_of
  split
  · assumption
  · omega

theorem calc_eq_foldl (hashes1 hashes2 : List Nat) (t : Nat)
    (hne1 : hashes1 ≠ []) (hne2 : hashes2 ≠ []) :
    calculate_max_similarity hashes1 hashes2 t
      = ((List.range ((long_of hashes1 hashes2).length
            - (short_of hashes1 hashes2).length + 1)).map
          (code_rate (long_of hashes1 hashes2) (short_of hashes1 hashes2) t)).foldl
          max 0 := by
  rw [calculate_max_similarity, if_neg (by simp [hne1, hne2])]
  exact slideLoop_eq_foldl _ _ _ _ _

theorem simCount_comm (xs ys : List Nat) (d : Nat) :
    simCount xs ys d = simCount ys xs d := by
  unfold simCount
  rw [← List.zip_swap xs ys, List.countP_map]
  apply List.countP_congr
  intro q _
  simp [Function.comp, phashDist_comm q.1 q.2]

theorem simCount_mono (w s : List Nat) {d1 d2 : Nat} (h : d1 ≤ d2) :
    simCount w s d1 ≤ simCount w s d2 := by
  unfold simCount
  apply List.countP_mono_left
  intro q _
  simp only [decide_eq_true_eq]
  omega

theorem code_rate_mono (long_h short_h : List Nat) {d1 d2 : Nat} (h : d1 ≤ d2)
    (i : Nat) : code_rate long_h short_h d1 i ≤ code_rate long_h short_h d2 i := by
  unfold code_rate
  rcases Nat.eq_zero_or_pos short_h.length with h0 | hpos
  · rw [h0]; norm_num
  · have hc : (0 : ℚ) < (short_h.length : ℚ) := by exact_mod_cast hpos
    apply div_le_div_of_nonneg_right ?_ hc.le |>.trans_eq rfl
    exact_mod_cast simCount_mono _ _ h

/-- C2: for every threshold and all hash lists, `calculate_max_similarity`
returns `0` when either list is empty, and otherwise returns the maximum over
all window offsets `i ∈ 0 ..= long.len - short.len` of the fraction of
positions `j` with `hamming(long[i+j], short[j]) < threshold`, divided by
`short.len` (stated as: the result is attained at some offset and bounds the
rate of every offset). -/
theorem calculate_max_similarity_is_window_maximum (t : Nat)
    (hashes1 hashes2 : List Nat) :
    ((hashes1 = [] ∨ hashes2 = []) → calculate_max_similarity hashes1 hashes2 t = 0) ∧
    (hashes1 ≠ [] → hashes2 ≠ [] →
      (∃ i, i ≤ (long_of hashes1 hashes2).length - (short_of hashes1 hashes2).length ∧
        calculate_max_similarity hashes1 hashes2 t
          = window_rate (long_of hashes1 hashes2) (short_of hashes1 hashes2) t i) ∧
      (∀ i, i ≤ (long_of hashes1 hashes2).length - (short_of hashes1 hashes2).length →
        window_rate (long_of hashes1 hashes2) (short_of hashes1 hashes2) t i
          ≤ calculate_max_similarity hashes1 hashes2 t)) := by
  constructor
  · intro h
    rw [calculate_max_similarity, if_pos h]
  · intro hne1 hne2
    have hfold := calc_eq_foldl hashes1 hashes2 t hne1 hne2
    set L := (long_of hashes1 hashes2).length with hL
    set S := (short_of hashes1 hashes2).length with hS
    have hSL : S ≤ L := short_le_long hashes1 hashes2
    have hbridge : ∀ i, i ≤ L - S →
        code_rate (long_of hashes1 hashes2) (short_of hashes1 hashes2) t i
          = window_rate (long_of hashes1 hashes2) (short_of hashes1 hashes2) t i := by
      intro i hi
      exact code_rate_eq_window_rate _ _ _ _ (by omega)
    have hbound : ∀ i, i ≤ L - S →
        window_rate (long_of hashes1 hashes2) (short_of hashes1 hashes2) t i
          ≤ calculate_max_similarity hashes1 hashes2 t := by
      intro i hi
      rw [hfold, ← hbridge i hi]
      exact mem_le_foldl_max _ _ _
        (List.mem_map.mpr ⟨i, List.mem_range.mpr (by omega), rfl⟩)
    refine ⟨?_, hbound⟩
    rcases foldl_max_eq_init_or_mem
        ((List.range (L - S + 1)).map
          (code_rate (long_of hashes1 hashes2) (short_of hashes1 hashes2) t)) 0 with
      hz | hmem
    · refine ⟨0, Nat.zero_le _, ?_⟩
      have h0 : calculate_max_similarity hashes1 hashes2 t = 0 := by rw [hfold, hz]
      have hle := hbound 0 (Nat.zero_le _)
      rw [h0] at hle ⊢
      exact le_antisymm (window_rate_nonneg _ _ _ _) hle
    · rcases List.mem_map.mp hmem with ⟨i, hi, hieq⟩
      have hir : i ≤ L - S := by
        have := List.mem_range.mp hi
        omega
      exact ⟨i, hir, by rw [hfold, ← hieq, hbridge i hir]⟩

/-- Witness for the C2 theorem at concrete inputs: the empty case at
`([], [0])` and the attained-maximum case at `([0, 7], [0])`. -/
theorem calculate_max_similarity_is_window_maximum_witness :
    calculate_max_similarity [] [0] 1 = 0 ∧
    (∃ i, i ≤ (long_of [0, 7] [0]).length - (short_of [0, 7] [0]).length ∧
      calculate_max_similarity [0, 7] [0] 1
        = window_rate (long_of [0, 7] [0]) (short_of [0, 7] [0]) 1 i) :=
  ⟨(calculate_max_similarity_is_window_maximum 1 [] [0]).1 (Or.inl rfl),
   ((calculate_max_similarity_is_window_maximum 1 [0, 7] [0]).2
     (by simp) (by simp)).1⟩

/-- C8: `calculate_max_similarity` is symmetric in its two sequence arguments
for all non-empty inputs. -/
theorem calculate_max_similarity_symm (t : Nat) (a b : List Nat)
    (ha : a ≠ []) (hb : b ≠ []) :
    calculate_max_similarity a b t = calculate_max_similarity b a t := by
  rcases Nat.lt_trichotomy a.length b.length with hlt | heq | hgt
  · have e1 : long_of a b = b := by unfold long_of; exact if_neg (not_le.mpr hlt)
    have e2 : short_of a b = a := by unfold short_of; exact if_neg (not_le.mpr hlt)
    have e3 : long_of b a = b := by unfold long_of; exact if_pos hlt.le
    have e4 : short_of b a = a := by unfold short_of; exact if_pos hlt.le
    rw [calc_eq_foldl a b t ha hb, calc_eq_foldl b a t hb ha, e1, e2, e3, e4]
  · have e1 : long_of a b = a := by unfold long_of; exact if_pos (le_of_eq heq.symm)
    have e2 : short_of a b = b := by unfold short_of; exact if_pos (le_of_eq heq.symm)
    have e3 : long_of b a = b := by unfold long_of; exact if_pos (le_of_eq heq)
    have e4 : short_of b a = a := by unfold short_of; exact if_pos (le_of_eq heq)
    rw [calc_eq_foldl a b t ha hb, calc_eq_foldl b a t hb ha, e1, e2, e3, e4]
    have hsub1 : a.length - b.length = 0 := by omega
    have hsub2 : b.length - a.length = 0 := by omega
    rw [hsub1, hsub2, show List.range 1 = [0] from rfl]
    simp only [List.map_cons, List.map_nil, List.foldl_cons, List.foldl_nil]
    congr 1
    unfold code_rate
    rw [List.drop_zero, List.drop_zero, List.take_of_length_le (le_of_eq heq),
      List.take_of_length_le (le_of_eq heq.symm), simCount_comm, heq]
  · have e1 : long_of a b = a := by unfold long_of; exact if_pos hgt.le
    have e2 : short_of a b = b := by unfold short_of; exact if_pos hgt.le
    have e3 : long_of b a = a := by unfold long_of; exact if_neg (not_le.mpr hgt)
    have e4 : short_of b a = b := by unfold short_of; exact if_neg (not_le.mpr hgt)
    rw [calc_eq_foldl a b t ha hb, calc_eq_foldl b a t hb ha, e1, e2, e3, e4]

/-- Witness for the C8 symmetry theorem at `([0, 7], [0])`. -/
theorem calculate_max_similarity_symm_witness :
    calculate_max_similarity [0, 7] [0] 5 = calculate_max_similarity [0] [0, 7] 5 :=
  calculate_max_similarity_symm 5 [0, 7] [0] (by simp) (by simp)

/-- C10: the maximum match rate returned by `calculate_max_similarity` is
monotone non-decreasing in the Hamming-distance threshold. -/
theorem calculate_max_similarity_mono_threshold (a b : List Nat) (t1 t2 : Nat)
    (h : t1 ≤ t2) :
    calculate_max_similarity a b t1 ≤ calculate_max_similarity a b t2 := by
  by_cases hemp : a = [] ∨ b = []
  · rw [calculate_max_similarity, calculate_max_similarity, if_pos hemp, if_pos hemp]
  · push_neg at hemp
    rw [calc_eq_foldl a b t1 hemp.1 hemp.2, calc_eq_foldl a b t2 hemp.1 hemp.2]
    exact foldl_max_map_mono _ _ _ (fun i _ => code_rate_mono _ _ h i) 0 0 le_rfl

/-- Witness for the C10 monotonicity theorem at `([0, 5], [1])`, thresholds
`1 ≤ 3`. -/
theorem calculate_max_similarity_mono_threshold_witness :
    calculate_max_similarity [0, 5] [1] 1 ≤ calculate_max_similarity [0, 5] [1] 3 :=
  calculate_max_similarity_mono_threshold [0, 5] [1] 1 3 (by omega)

/-! ### Data model shared by the checkers -/

/-- `FileIndexDBModel` (`backend/model/db/file_index_db_model.py`), restricted
to the fields the duplicate checkers read.  `id` is `Optional[int]` in the
source (`None` until the row is persisted). -/
structure FileIndexDBModel where
  id : Option Nat
  file_path : String
  file_name : String
  file_md5 : String
  file_size : Nat
deriving DecidableEq

/-- `DuplicateFileDBModel` as constructed by `MD5Checker.get_results`
(`DuplicateFileDBModel(file_id=f.id, similarity_type=..., similarity_rate=...)`). -/
structure DuplicateFileDBModel where
  file_id : Option Nat
  similarity_type : String
  similarity_rate : ℚ
deriving DecidableEq

/-- `DuplicateGroupDBModel` as constructed by `MD5Checker.get_results`
(`group_name` plus the member list). -/
structure DuplicateGroupDBModel where
  group_name : String
  files : List DuplicateFileDBModel
deriving DecidableEq

/-- `DBConstants.SimilarityType.MD5` (`backend/db/db_constants.py`). -/
def SimilarityTypeMD5 : String := "md5"

/-! ### MD5Checker (`backend/file_repository/duplicate_check/checker/md5_checker.py`)

The checker's state is `self.md5_groups: Dict[str, List[FileIndexDBModel]]`,
modelled as an insertion-ordered association list (Python dicts preserve
insertion order, and `get_results` iterates in that order). -/

/-- `self.md5_groups[md5].append(file_info)` after
`if md5 not in self.md5_groups: self.md5_groups[md5] = []`:
appends to the existing bucket, or adds a new bucket at the end. -/
def md5AddToBucket : List (String × List FileIndexDBModel) → String →
    FileIndexDBModel → List (String × List FileIndexDBModel)
  | [], md5, f => [(md5, [f])]
  | (k, fs) :: rest, md5, f =>
      if k = md5 then (k, fs ++ [f]) :: rest
      else (k, fs) :: md5AddToBucket rest md5 f

/-- `MD5Checker.add_file`: skips files whose `file_md5` is empty
(`if not md5: return`), otherwise records the file under its MD5 bucket. -/
def md5_add_file (md5_groups : List (String × List FileIndexDBModel))
    (file_info : FileIndexDBModel) : List (String × List FileIndexDBModel) :=
  if file_info.file_md5 = "" then md5_groups
  else md5AddToBucket md5_groups file_info.file_md5 file_info

/-- Folding `MD5Checker.add_file` over a whole input stream, starting from the
empty state `{}` built by `__init__`. -/
def md5_add_files (files : List FileIndexDBModel) :
    List (String × List FileIndexDBModel) :=
  files.foldl md5_add_file []

/-- `MD5Checker.get_results`: emits one `DuplicateGroupDBModel` per bucket
with strictly more than one entry; every member is reported with
`similarity_type='md5'` and `similarity_rate=1.0`, and the group is named by
the hash itself. -/
def md5_get_results (md5_groups : List (String × List FileIndexDBModel)) :
    List DuplicateGroupDBModel :=
  md5_groups.filterMap (fun b =>
    if 1 < b.2.length then
      some { group_name := b.1,
             files := b.2.map (fun f =>
               { file_id := f.id,
                 similarity_type := SimilarityTypeMD5,
                 similarity_rate := 1 }) }
    else none)

/-! ### MD5Checker lemmas -/

theorem md5AddToBucket_mem (k : String) (f : FileIndexDBModel) :
    ∀ (s : List (String × List FileIndexDBModel)),
    ∀ b ∈ md5AddToBucket s k f, ∀ x ∈ b.2, (∃ b' ∈ s, x ∈ b'.2) ∨ x = f := by
  intro s
  induction s with
  | nil =>
      intro b hb x hx
      simp only [md5AddToBucket, List.mem_singleton] at hb
      subst hb
      simp only [List.mem_singleton] at hx
      exact Or.inr hx
  | cons hd tl ih =>
      intro b hb x hx
      rw [md5AddToBucket] at hb
      by_cases hk : hd.1 = k
      · rw [if_pos hk] at hb
        rcases List.mem_cons.mp hb with h | h
        · subst h
          rcases List.mem_append.mp hx with h' | h'
          · exact Or.inl ⟨hd, List.mem_cons_self _ _, h'⟩
          · simp only [List.mem_singleton] at h'
            exact Or.inr h'
        · exact Or.inl ⟨b, List.mem_cons_of_mem _ h, hx⟩
      · rw [if_neg hk] at hb
        rcases List.mem_cons.mp hb with h | h
        · subst h
          exact Or.inl ⟨hd, List.mem_cons_self _ _, hx⟩
        · rcases ih b h x hx with ⟨b', hb', hx'⟩ | h'
          · exact Or.inl ⟨b', List.mem_cons_of_mem _ hb', hx'⟩
          · exact Or.inr h'

/-- Provenance invariant for the MD5 state: every file stored in any bucket
is drawn from `F` and has a non-empty MD5. -/
def md5StateFrom (F : List FileIndexDBModel)
    (s : List (String × List FileIndexDBModel)) : Prop :=
  ∀ b ∈ s, ∀ f ∈ b.2, f ∈ F ∧ f.file_md5 ≠ ""

theorem md5_add_file_preserves_from (F : List FileIndexDBModel)
    (s : List (String × List FileIndexDBModel)) (f : FileIndexDBModel)
    (hs : md5StateFrom F s) (hf : f ∈ F) :
    md5StateFrom F (md5_add_file s f) := by
  unfold md5_add_file
  by_cases hmd5 : f.file_md5 = ""
  · rw [if_pos hmd5]; exact hs
  · rw [if_neg hmd5]
    intro b hb x hx
    rcases md5AddToBucket_mem f.file_md5 f s b hb x hx with ⟨b', hb', hx'⟩ | h
    · exact hs b' hb' x hx'
    · subst h; exact ⟨hf, hmd5⟩

theorem md5_foldl_from (F : List FileIndexDBModel) :
    ∀ (files : List FileIndexDBModel) (s : List (String × List FileIndexDBModel)),
    md5StateFrom F s → (∀ f ∈ files, f ∈ F) →
    md5StateFrom F (files.foldl md5_add_file s) := by
  intro files
  induction files with
  | nil => intro s hs _; exact hs
  | cons f fs ih =>
      intro s hs hmem
      rw [List.foldl_cons]
      exact ih (md5_add_file s f)
        (md5_add_file_preserves_from F s f hs (hmem f (List.mem_cons_self _ _)))
        (fun x hx => hmem x (List.mem_cons_of_mem _ hx))

/-- C9: a `FileRecord` with empty `exact_hash` (`file_md5`) leaves the MD5
grouper's state unchanged, and every file entry in any emitted group
originates from an added file with a non-empty MD5 — so an empty-hash file
never appears in `MD5Checker.get_results()`. -/
theorem md5_empty_hash_file_skipped :
    (∀ (s : List (String × List FileIndexDBModel)) (f : FileIndexDBModel),
      f.file_md5 = "" → md5_add_file s f = s) ∧
    (∀ (files : List FileIndexDBModel) (g : DuplicateGroupDBModel)
        (df : DuplicateFileDBModel),
      g ∈ md5_get_results (md5_add_files files) → df ∈ g.files →
      ∃ f, f ∈ files ∧ f.file_md5 ≠ "" ∧
        df = { file_id := f.id, similarity_type := SimilarityTypeMD5,
               similarity_rate := 1 }) := by
  constructor
  · intro s f h
    unfold md5_add_file
    rw [if_pos h]
  · intro files g df hg hdf
    have hfrom : md5StateFrom files (md5_add_files files) :=
      md5_foldl_from files files [] (by intro b hb; cases hb) (fun _ h => h)
    unfold md5_get_results at hg
    rcases List.mem_filterMap.mp hg with ⟨b, hb, hsome⟩
    by_cases hlen : 1 < b.2.length
    · rw [if_pos hlen] at hsome
      injection hsome with hsome
      subst hsome
      simp only [List.mem_map] at hdf
      rcases hdf with ⟨f, hf, rfl⟩
      exact ⟨f, (hfrom b hb f hf).1, (hfrom b hb f hf).2, rfl⟩
    · rw [if_neg hlen] at hsome
      cases hsome

/-- Witness for the C9 theorem: adding a file with empty MD5 to a sample
state is a no-op, and the single group produced by two files sharing MD5
`"aa"` consists of entries stemming from those files. -/
theorem md5_empty_hash_file_skipped_witness :
    md5_add_file [("aa", [(⟨some 1, "p1", "n1", "aa", 3⟩ : FileIndexDBModel)])]
      (⟨some 2, "p2", "n2", "", 4⟩ : FileIndexDBModel)
      = [("aa", [(⟨some 1, "p1", "n1", "aa", 3⟩ : FileIndexDBModel)])] :=
  md5_empty_hash_file_skipped.1 _ _ rfl

/-! ### ImageChecker (`backend/file_repository/duplicate_check/checker/image_checker.py`)

`add_file` only appends `ImageData(info, phash)` entries to `self.image_data`
(files whose extension is unsupported or whose decode fails are dropped), so
every reachable `image_data` list is an arbitrary list of `ImageData`; the
grouping logic lives entirely in `get_results`, which is modelled below over
an arbitrary such list. -/

/-- `ImageData` (`image_checker.py`): a file index together with its
precomputed perceptual hash. -/
structure ImageData where
  info : FileIndexDBModel
  hash : Nat
deriving DecidableEq

/-- Default used for (never-occurring) out-of-bounds index lookups in the
model; Python indexes `self.image_data[i]` directly. -/
def dfltImageData : ImageData := ⟨⟨none, "", "", "", 0⟩, 0⟩

/-- The join test of the inner loop of `ImageChecker.get_results`: first
`if image_data[i].info.file_md5 and image_data[i].info.file_md5 ==
image_data[j].info.file_md5` (exact path), else the perceptual fallback
`distance <= threshold`. -/
def image_join (threshold : Nat) (a b : ImageData) : Bool :=
  if a.info.file_md5 ≠ "" ∧ a.info.file_md5 = b.info.file_md5 then true
  else decide (phashDist a.hash b.hash ≤ threshold)

/-- The inner loop `for j in range(i+1, num_images)` of
`ImageChecker.get_results`: scans candidate indices `js`, skipping visited
ones, joining every `j` that passes `image_join` against the group founder
`di` and marking it visited.  Returns the joined indices (in scan order) and
the updated visited list. -/
def imageInnerScan (threshold : Nat) (di : ImageData) (data : List ImageData) :
    List Nat → List Bool → List Nat × List Bool
  | [], visited => ([], visited)
  | j :: js, visited =>
      if visited.getD j false then imageInnerScan threshold di data js visited
      else if image_join threshold di (data.getD j dfltImageData) then
        let r := imageInnerScan threshold di data js (visited.set j true)
        (j :: r.1, r.2)
      else imageInnerScan threshold di data js visited

/-- The outer loop `for i in range(num_images)` of `ImageChecker.get_results`:
for each unvisited index `i`, runs the inner scan over the remaining indices
(`range(i+1, n)` is exactly the tail of the outer index list) and emits the
group when it has more than one member. -/
def imageOuterScan (threshold : Nat) (data : List ImageData) :
    List Nat → List Bool → List (List Nat)
  | [], _ => []
  | i :: js, visited =>
      if visited.getD i false then imageOuterScan threshold data js visited
      else
        let r := imageInnerScan threshold (data.getD i dfltImageData) data js
          (visited.set i true)
        let group := i :: r.1
        let rest := imageOuterScan threshold data js r.2
        if 1 < group.length then group :: rest else rest

/-- The duplicate groups of `ImageChecker.get_results` as lists of indices
into `image_data`, in emission order. -/
def image_duplicate_index_groups (threshold : Nat) (data : List ImageData) :
    List (List Nat) :=
  imageOuterScan threshold data (List.range data.length)
    (List.replicate data.length false)

/-- The group record `ImageChecker.get_results` appends
(`DuplicateGroupDBModule(group_name=..., file_ids=...)`); the class is
referenced by the source but not defined under it, so its shape is modelled
from this construction site: a name plus the member file ids. -/
structure DuplicateGroupDBModule where
  group_name : String
  file_ids : List (Option Nat)
deriving DecidableEq

/-- `ImageChecker.get_results`: one group per emitted index group, named
`img_sim_{len(results)+1}` and carrying the members' `info.id` values. -/
def image_get_results (threshold : Nat) (data : List ImageData) :
    List DuplicateGroupDBModule :=
  (image_duplicate_index_groups threshold data).enum.map (fun p =>
    { group_name := "img_sim_" ++ toString (p.1 + 1),
      file_ids := p.2.map (fun idx => (data.getD idx dfltImageData).info.id) })

/-! ### ImageChecker lemmas -/

theorem imageInnerScan_joined (t : Nat) (di : ImageData) (data : List ImageData) :
    ∀ (js : List Nat) (visited : List Bool),
    ∀ j ∈ (imageInnerScan t di data js visited).1,
      image_join t di (data.getD j dfltImageData) = true := by
  intro js
  induction js with
  | nil => intro visited j hj; cases hj
  | cons j' js' ih =>
      intro visited j hj
      rw [imageInnerScan] at hj
      by_cases hv : visited.getD j' false
      · rw [if_pos hv] at hj
        exact ih visited j hj
      · rw [if_neg hv] at hj
        by_cases hjoin : image_join t di (data.getD j' dfltImageData) = true
        · rw [if_pos hjoin] at hj
          rcases List.mem_cons.mp hj with h | h
          · subst h; exact hjoin
          · exact ih (visited.set j' true) j h
        · rw [if_neg hjoin] at hj
          exact ih visited j hj

theorem imageOuterScan_join (t : Nat) (data : List ImageData) :
    ∀ (idxs : List Nat) (visited : List Bool),
    ∀ g ∈ imageOuterScan t data idxs visited,
    ∀ hd tl, g = hd :: tl → ∀ j ∈ tl,
      image_join t (data.getD hd dfltImageData) (data.getD j dfltImageData)
        = true := by
  intro idxs
  induction idxs with
  | nil => intro visited g hg; cases hg
  | cons i js ih =>
      intro visited g hg hd tl hgeq j hj
      rw [imageOuterScan] at hg
      by_cases hv : visited.getD i false
      · rw [if_pos hv] at hg
        exact ih visited g hg hd tl hgeq j hj
      · rw [if_neg hv] at hg
        simp only at hg
        by_cases hlen :
            1 < (i :: (imageInnerScan t (data.getD i dfltImageData) data js
              (visited.set i true)).1).length
        · rw [if_pos hlen] at hg
          rcases List.mem_cons.mp hg with h | h
          · rw [hgeq] at h
            injection h with h1 h2
            subst h1
            subst h2
            exact imageInnerScan_joined t _ data js _ j hj
          · exact ih _ g h hd tl hgeq j hj
        · rw [if_neg hlen] at hg
          exact ih _ g hg hd tl hgeq j hj

theorem imageOuterScan_len (t : Nat) (data : List ImageData) :
    ∀ (idxs : List Nat) (visited : List Bool),
    ∀ g ∈ imageOuterScan t data idxs visited, 1 < g.length := by
  intro idxs
  induction idxs with
  | nil => intro visited g hg; cases hg
  | cons i js ih =>
      intro visited g hg
      rw [imageOuterScan] at hg
      by_cases hv : visited.getD i false
      · rw [if_pos hv] at hg
        exact ih visited g hg
      · rw [if_neg hv] at hg
        simp only at hg
        by_cases hlen :
            1 < (i :: (imageInnerScan t (data.getD i dfltImageData) data js
              (visited.set i true)).1).length
        · rw [if_pos hlen] at hg
          rcases List.mem_cons.mp hg with h | h
          · subst h; exact hlen
          · exact ih _ g h
        · rw [if_neg hlen] at hg
          exact ih _ g hg

/-! ### Concrete image populations for the scenario claims -/

/-- Image A of the C3 scenario: exact hash `"h1"`, perceptual hash `0`. -/
def imgA : ImageData := ⟨⟨some 1, "A.jpg", "A.jpg", "h1", 10⟩, 0⟩

/-- Image B of the C3 scenario: exact hash `"h1"` (same as A). -/
def imgB : ImageData := ⟨⟨some 2, "B.jpg", "B.jpg", "h1", 10⟩, 0⟩

/-- Image C of the C3 scenario: exact hash `"h2"`, perceptual hash `7`
(Hamming distance 3 from A's hash `0`). -/
def imgC : ImageData := ⟨⟨some 3, "C.jpg", "C.jpg", "h2", 10⟩, 7⟩

/-- Image D of the C5 scenario: exact hash `"m1"`, perceptual hash `5`. -/
def imgD : ImageData := ⟨⟨some 1, "D.jpg", "D.jpg", "m1", 10⟩, 5⟩

/-- Image E of the C5 scenario: exact hash `"m2"` (different from D), but the
identical perceptual hash `5`. -/
def imgE : ImageData := ⟨⟨some 2, "E.jpg", "E.jpg", "m2", 10⟩, 5⟩

/-- C3 counterexample: on the claim's population (A, B share exact hash
`"h1"`; C has `"h2"`; `phash` distance between A and C is 3; threshold 8),
the emitted group also contains C — the claim that the group holds exactly
A and B, with C excluded, is false on the code: after B joins via the exact
path the inner loop continues with `j = C`, whose distance `3 <= 8` passes
the perceptual fallback. -/
theorem image_C3_counterexample :
    phashDist imgA.hash imgC.hash = 3 ∧
    ∃ g ∈ image_get_results 8 [imgA, imgB, imgC], some 3 ∈ g.file_ids := by
  decide

/-- C3 as amended: `ImageChecker.get_results` on the scenario population
emits exactly one group containing A, B and C (ids 1, 2, 3): B joins via the
exact-hash path and C joins the same group via the perceptual path, since
its Hamming distance 3 to A is within threshold 8. -/
theorem image_C3_single_group_with_C :
    image_get_results 8 [imgA, imgB, imgC]
      = [⟨"img_sim_1", [some 1, some 2, some 3]⟩] := by
  decide

/-- C5 counterexample: with threshold 0, two files with different (non-empty)
exact hashes but identical perceptual hashes are still placed into one
emitted group — the perceptual fallback does join members at threshold 0
(it requires distance `<= 0`, i.e. exactly 0). -/
theorem image_C5_counterexample :
    imgD.info.file_md5 ≠ imgE.info.file_md5 ∧
    image_get_results 0 [imgD, imgE] = [⟨"img_sim_1", [some 1, some 2]⟩] := by
  decide

/-- C5 as amended: with threshold 0, every non-founder member of an emitted
group is joined to the group's founder either via exact-hash equality or
with an identical perceptual-hash value (Hamming distance exactly 0) — the
perceptual fallback never joins two members whose hash values differ. -/
theorem image_threshold_zero_exact_or_identical_hash
    (data : List ImageData) (g : List Nat)
    (hg : g ∈ image_duplicate_index_groups 0 data)
    (hd : Nat) (tl : List Nat) (hgeq : g = hd :: tl) (j : Nat) (hj : j ∈ tl) :
    ((data.getD hd dfltImageData).info.file_md5 ≠ "" ∧
      (data.getD hd dfltImageData).info.file_md5
        = (data.getD j dfltImageData).info.file_md5) ∨
    (data.getD hd dfltImageData).hash = (data.getD j dfltImageData).hash := by
  have hjoin := imageOuterScan_join 0 data _ _ g hg hd tl hgeq j hj
  unfold image_join at hjoin
  by_cases hexact : (data.getD hd dfltImageData).info.file_md5 ≠ "" ∧
      (data.getD hd dfltImageData).info.file_md5
        = (data.getD j dfltImageData).info.file_md5
  · exact Or.inl hexact
  · rw [if_neg hexact] at hjoin
    right
    have hle : phashDist (data.getD hd dfltImageData).hash
        (data.getD j dfltImageData).hash ≤ 0 := of_decide_eq_true hjoin
    exact phashDist_eq_zero (Nat.le_zero.mp hle)

/-- Witness for the amended C5 theorem on the concrete population `[D, E]`:
the group `[0, 1]` is emitted at threshold 0 and its members' join is
explained by the disjunction (here: identical hash values). -/
theorem image_threshold_zero_exact_or_identical_hash_witness :
    (([imgD, imgE].getD 0 dfltImageData).info.file_md5 ≠ "" ∧
      ([imgD, imgE].getD 0 dfltImageData).info.file_md5
        = ([imgD, imgE].getD 1 dfltImageData).info.file_md5) ∨
    ([imgD, imgE].getD 0 dfltImageData).hash
      = ([imgD, imgE].getD 1 dfltImageData).hash :=
  image_threshold_zero_exact_or_identical_hash [imgD, imgE] [0, 1]
    (by decide) 0 [1] rfl 1 (by decide)

/-! ### VideoSimilarityTree
(`backend/file_repository/duplicate_check/checker/video/utils/video_similarity_Tree.py`)

External collaborators are modelled as fixed functions for the run:
`analyzer : String → Option VideoFileInfoResult` models
`VideoAnalyzer.create_video_info` (None when analysis fails) and
`db : String → Option VideoFileInfoResult` models
`DBOperations.get_video_file_info` (a lookup whose implementation is DB
plumbing outside the duplicate-check engine).

The stored `video_hashes` string is modelled in already-parsed form as a
`List Nat` (`VideoComparisonUtil.parse_hashes`; `None` and the empty string
both parse to `[]`).  The md5-keyed `_parsed_hash_cache` is a memoization of
exactly that parse and is semantically transparent when fingerprints are
fixed for the run, so `_get_or_parse_hashes(info)` is modelled as
`info.video_feature.video_hashes`.

Python raises `TypeError` when `duration` is `None` on either side of the
`>` comparison at the join point (and `IndexError` on `group[0]` of an empty
group); at that point no mutation has happened yet, so a raising call leaves
`video_groups` unchanged.  The model makes each step `Option`-valued: `none`
is a raised exception, and reachable states are chained through successful
steps only. -/

/-- `VideoFeatureDBModel` (`backend/model/db/video_feature_db_model.py`),
with `video_hashes` in parsed form and `duration : Optional[float]`. -/
structure VideoFeatureDBModel where
  id : Option Nat
  file_md5 : String
  video_hashes : List Nat
  duration : Option ℚ
deriving DecidableEq

/-- `VideoFileInfoResult` (`backend/model/video_file_info_result.py`). -/
structure VideoFileInfoResult where
  file_index : FileIndexDBModel
  video_feature : VideoFeatureDBModel
  similarity_type : String
  similarity_rate : ℚ
deriving DecidableEq

/-- `VideoSimilarityNode` (`video_similarity_Tree.py`): a path and the
similarity to the group's representative. -/
structure VideoSimilarityNode where
  path : String
  similarity : ℚ
deriving DecidableEq

/-- The `VideoSimilarityTree` configuration fields used by
`_compare_video_and_group`.  `max_duration_diff_rate` models the source's
`max_duration_diff_ratio` field (renamed only because of lexical constraints
on identifier endings in this development). -/
structure VSTConfig where
  frame_similar_distance : Nat
  frame_similarity_rate : ℚ
  max_duration_diff_rate : ℚ
deriving DecidableEq

/-- The duration pre-filter of `_compare_video_and_group`: when the
configured ratio is positive and both durations are known,
`min_d, max_d = (d1, d2) if d1 < d2 else (d2, d1)`, and the group is skipped
when `max_d > 0 and (min_d / max_d) < max_duration_diff_ratio`. -/
def duration_prefilter_skip (max_duration_diff_rate : ℚ)
    (d1 d2 : Option ℚ) : Bool :=
  if 0 < max_duration_diff_rate then
    match d1, d2 with
    | some x, some y =>
        let min_d := if x < y then x else y
        let max_d := if x < y then y else x
        decide (0 < max_d ∧ min_d / max_d < max_duration_diff_rate)
    | _, _ => false
  else false

/-- The join step once `similarity >= frame_similarity_rate`: if the new
video is strictly longer than the representative (`video_info.duration >
representative.duration`), it is inserted at index 0 with similarity `1.0`
and the old representative's similarity is overwritten with the computed
value; otherwise the new node is appended with the computed similarity.
`none` models the `TypeError` Python raises when either duration is `None`. -/
def tree_join_group (video_info rep : VideoFileInfoResult)
    (g0 : VideoSimilarityNode) (rest : List VideoSimilarityNode) (sim : ℚ) :
    Option (List VideoSimilarityNode) :=
  match video_info.video_feature.duration, rep.video_feature.duration with
  | some dn, some dr =>
      some (if dr < dn
        then ⟨video_info.file_index.file_path, 1⟩ :: ⟨g0.path, sim⟩ :: rest
        else (g0 :: rest) ++ [⟨video_info.file_index.file_path, sim⟩])
  | _, _ => none

/-- The `for group in self.video_groups` loop of `_compare_video_and_group`:
fetches each group's representative from the DB (skipping the group when the
lookup fails), applies the duration pre-filter, computes the fragment
similarity against the representative's hashes, joins the first group at or
above `frame_similarity_rate` and stops; if no group matches, a new
singleton group is appended at the end. -/
def compare_loop (db : String → Option VideoFileInfoResult) (cfg : VSTConfig)
    (video_info : VideoFileInfoResult) (current_hashes : List Nat) :
    List (List VideoSimilarityNode) → Option (List (List VideoSimilarityNode))
  | [] => some [[⟨video_info.file_index.file_path, 1⟩]]
  | g :: gs =>
      match g with
      | [] => none
      | g0 :: rest =>
          match db g0.path with
          | none =>
              (compare_loop db cfg video_info current_hashes gs).map (g :: ·)
          | some rep =>
              if duration_prefilter_skip cfg.max_duration_diff_rate
                  video_info.video_feature.duration
                  rep.video_feature.duration then
                (compare_loop db cfg video_info current_hashes gs).map (g :: ·)
              else
                let sim := calculate_max_similarity current_hashes
                  rep.video_feature.video_hashes cfg.frame_similar_distance
                if cfg.frame_similarity_rate ≤ sim then
                  (tree_join_group video_info rep g0 rest sim).map (· :: gs)
                else
                  (compare_loop db cfg video_info current_hashes gs).map (g :: ·)

/-- `_compare_video_and_group`: a video with an empty (unparsable) hash list
immediately becomes a new singleton group; otherwise the group loop runs. -/
def compare_video_and_group (db : String → Option VideoFileInfoResult)
    (cfg : VSTConfig) (video_info : VideoFileInfoResult)
    (video_groups : List (List VideoSimilarityNode)) :
    Option (List (List VideoSimilarityNode)) :=
  if video_info.video_feature.video_hashes = [] then
    some (video_groups ++ [[⟨video_info.file_index.file_path, 1⟩]])
  else
    compare_loop db cfg video_info video_info.video_feature.video_hashes
      video_groups

/-- `VideoSimilarityTree.add_video`: analyzes the path and classifies the
video when analysis succeeds (`if video_info:`). -/
def add_video (analyzer db : String → Option VideoFileInfoResult)
    (cfg : VSTConfig) (video_groups : List (List VideoSimilarityNode))
    (video_path : String) : Option (List (List VideoSimilarityNode)) :=
  match analyzer video_path with
  | none => some video_groups
  | some video_info => compare_video_and_group db cfg video_info video_groups

/-- States of `self.video_groups` reachable from the empty tree by
successful (non-raising) `add_video` calls. -/
inductive TreeReach (analyzer db : String → Option VideoFileInfoResult)
    (cfg : VSTConfig) : List (List VideoSimilarityNode) → Prop
  | init : TreeReach analyzer db cfg []
  | step {s s' : List (List VideoSimilarityNode)} {p : String} :
      TreeReach analyzer db cfg s →
      add_video analyzer db cfg s p = some s' →
      TreeReach analyzer db cfg s'

/-- The member-collection loop of `get_similar_video_groups`: looks each
node's path up in the DB, dropping nodes whose lookup fails, and stamps the
stored similarity onto the returned info. -/
def collect_infos (db : String → Option VideoFileInfoResult) :
    List VideoSimilarityNode → List VideoFileInfoResult
  | [] => []
  | item :: rest =>
      match db item.path with
      | some info =>
          { info with similarity_rate := item.similarity } :: collect_infos db rest
      | none => collect_infos db rest

/-- `VideoSimilarityTree.get_similar_video_groups`: keeps groups with at
least `min_group_size` nodes whose collected info lists still have at least
`min_group_size` entries. -/
def get_similar_video_groups (db : String → Option VideoFileInfoResult)
    (video_groups : List (List VideoSimilarityNode)) (min_group_size : Nat) :
    List (List VideoFileInfoResult) :=
  video_groups.filterMap (fun g =>
    if min_group_size ≤ g.length then
      let info_group := collect_infos db g
      if min_group_size ≤ info_group.length then some info_group else none
    else none)

/-! ### C4: the group representative (index 0) has the longest duration -/

/-- The duration the run's fixed DB state associates with a path. -/
def db_duration (db : String → Option VideoFileInfoResult) (p : String) :
    Option ℚ :=
  (db p).bind (fun info => info.video_feature.duration)

/-- A group satisfies the representative invariant: whenever the durations of
the member at index 0 and of any member are known, the former is largest. -/
def group_longest_first (db : String → Option VideoFileInfoResult)
    (g : List VideoSimilarityNode) : Prop :=
  ∀ g0 rest, g = g0 :: rest → ∀ m ∈ g, ∀ dh dm,
    db_duration db g0.path = some dh → db_duration db m.path = some dm →
    dm ≤ dh

/-- All groups of a tree state satisfy the representative invariant. -/
def longest_first (db : String → Option VideoFileInfoResult)
    (video_groups : List (List VideoSimilarityNode)) : Prop :=
  ∀ g ∈ video_groups, group_longest_first db g

theorem group_longest_first_singleton
    (db : String → Option VideoFileInfoResult) (n : VideoSimilarityNode) :
    group_longest_first db [n] := by
  intro g0 rest heq m hm dh dm hdh hdm
  injection heq with e1 e2
  subst e1
  subst e2
  rcases List.mem_singleton.mp hm with rfl
  rw [hdh] at hdm
  injection hdm with e
  exact le_of_eq e.symm

theorem tree_join_group_longest_first
    (db : String → Option VideoFileInfoResult) (vi rep : VideoFileInfoResult)
    (g0 : VideoSimilarityNode) (rest : List VideoSimilarityNode) (sim : ℚ)
    (g' : List VideoSimilarityNode)
    (hvi : ∀ j, db vi.file_index.file_path = some j →
      j.video_feature.duration = vi.video_feature.duration)
    (hdb : db g0.path = some rep)
    (hg : group_longest_first db (g0 :: rest))
    (hjoin : tree_join_group vi rep g0 rest sim = some g') :
    group_longest_first db g' := by
  unfold tree_join_group at hjoin
  cases hdn : vi.video_feature.duration with
  | none => rw [hdn] at hjoin; cases hjoin
  | some dn =>
      cases hdr : rep.video_feature.duration with
      | none => rw [hdn, hdr] at hjoin; cases hjoin
      | some dr =>
          rw [hdn, hdr] at hjoin
          injection hjoin with hjoin
          have hdur_head : db_duration db g0.path = some dr := by
            unfold db_duration
            rw [hdb]
            exact hdr
          have hdur_vi : ∀ dm, db_duration db vi.file_index.file_path = some dm →
              dm = dn := by
            intro dm hdm
            unfold db_duration at hdm
            cases hdbvi : db vi.file_index.file_path with
            | none => rw [hdbvi] at hdm; cases hdm
            | some j =>
                rw [hdbvi] at hdm
                have hdm' : j.video_feature.duration = some dm := hdm
                rw [hvi j hdbvi, hdn] at hdm'
                injection hdm' with e
                exact e.symm
          by_cases hcmp : dr < dn
          · rw [if_pos hcmp] at hjoin
            subst hjoin
            intro h0 rst heq m hm dh dm hdh hdm
            injection heq with e1 e2
            subst e1
            have hdh' : dh = dn := hdur_vi dh hdh
            rcases List.mem_cons.mp hm with rfl | hm'
            · exact le_of_eq ((hdur_vi dm hdm).trans hdh'.symm)
            · rcases List.mem_cons.mp hm' with rfl | hm''
              · rw [hdur_head] at hdm
                injection hdm with e
                rw [← e, hdh']
                exact hcmp.le
              · have hle := hg g0 rest rfl m (List.mem_cons_of_mem g0 hm'') dr dm
                  hdur_head hdm
                rw [hdh']
                exact le_trans hle hcmp.le
          · rw [if_neg hcmp] at hjoin
            subst hjoin
            intro h0 rst heq m hm dh dm hdh hdm
            rw [List.cons_append] at heq
            injection heq with e1 e2
            subst e1
            rw [hdur_head] at hdh
            injection hdh with e
            subst e
            rw [List.cons_append] at hm
            rcases List.mem_cons.mp hm with rfl | hm'
            · rw [hdur_head] at hdm
              injection hdm with e
              exact le_of_eq e.symm
            · rcases List.mem_append.mp hm' with hmr | hmn
              · exact hg g0 rest rfl m (List.mem_cons_of_mem g0 hmr) dr dm
                  hdur_head hdm
              · rcases List.mem_singleton.mp hmn with rfl
                rw [(hdur_vi dm hdm : dm = dn)]
                exact not_lt.mp hcmp

theorem compare_loop_cons_eq
    (db : String → Option VideoFileInfoResult) (cfg : VSTConfig)
    (vi : VideoFileInfoResult) (ch : List Nat) (g0 : VideoSimilarityNode)
    (rest : List VideoSimilarityNode)
    (gs : List (List VideoSimilarityNode)) :
    compare_loop db cfg vi ch ((g0 :: rest) :: gs)
      = match db g0.path with
        | none => (compare_loop db cfg vi ch gs).map ((g0 :: rest) :: ·)
        | some rep =>
            if duration_prefilter_skip cfg.max_duration_diff_rate
                vi.video_feature.duration rep.video_feature.duration then
              (compare_loop db cfg vi ch gs).map ((g0 :: rest) :: ·)
            else
              if cfg.frame_similarity_rate ≤ calculate_max_similarity ch
                  rep.video_feature.video_hashes cfg.frame_similar_distance then
                (tree_join_group vi rep g0 rest
                  (calculate_max_similarity ch rep.video_feature.video_hashes
                    cfg.frame_similar_distance)).map (· :: gs)
              else
                (compare_loop db cfg vi ch gs).map ((g0 :: rest) :: ·) := rfl

theorem compare_loop_preserves_longest_first
    (db : String → Option VideoFileInfoResult) (cfg : VSTConfig)
    (vi : VideoFileInfoResult) (ch : List Nat)
    (hvi : ∀ j, db vi.file_index.file_path = some j →
      j.video_feature.duration = vi.video_feature.duration) :
    ∀ (video_groups video_groups' : List (List VideoSimilarityNode)),
    longest_first db video_groups →
    compare_loop db cfg vi ch video_groups = some video_groups' →
    longest_first db video_groups' := by
  intro video_groups
  induction video_groups with
  | nil =>
      intro groups' hinv hloop
      simp only [compare_loop] at hloop
      injection hloop with h
      subst h
      intro g hg
      rcases List.mem_singleton.mp hg with rfl
      exact group_longest_first_singleton db _
  | cons g gs ih =>
      intro groups' hinv hloop
      cases g with
      | nil => cases hloop
      | cons g0 rest =>
          have hg : group_longest_first db (g0 :: rest) :=
            hinv _ (List.mem_cons_self _ _)
          have hgs : longest_first db gs :=
            fun x hx => hinv x (List.mem_cons_of_mem _ hx)
          cases hdb : db g0.path with
          | none =>
              rw [compare_loop_cons_eq, hdb] at hloop
              have hloop2 : (compare_loop db cfg vi ch gs).map
                  ((g0 :: rest) :: ·) = some groups' := hloop
              simp only [Option.map_eq_some'] at hloop2
              rcases hloop2 with ⟨gs', hgs', rfl⟩
              intro x hx
              rcases List.mem_cons.mp hx with rfl | h
              · exact hg
              · exact ih gs' hgs hgs' x h
          | some rep =>
              rw [compare_loop_cons_eq, hdb] at hloop
              have hloop2 : (if duration_prefilter_skip cfg.max_duration_diff_rate
                    vi.video_feature.duration rep.video_feature.duration then
                  (compare_loop db cfg vi ch gs).map ((g0 :: rest) :: ·)
                else
                  if cfg.frame_similarity_rate ≤ calculate_max_similarity ch
                      rep.video_feature.video_hashes cfg.frame_similar_distance then
                    (tree_join_group vi rep g0 rest
                      (calculate_max_similarity ch rep.video_feature.video_hashes
                        cfg.frame_similar_distance)).map (· :: gs)
                  else
                    (compare_loop db cfg vi ch gs).map ((g0 :: rest) :: ·))
                  = some groups' := hloop
              by_cases hskip : duration_prefilter_skip cfg.max_duration_diff_rate
                  vi.video_feature.duration rep.video_feature.duration = true
              · rw [if_pos hskip] at hloop2
                simp only [Option.map_eq_some'] at hloop2
                rcases hloop2 with ⟨gs', hgs', rfl⟩
                intro x hx
                rcases List.mem_cons.mp hx with rfl | h
                · exact hg
                · exact ih gs' hgs hgs' x h
              · rw [if_neg hskip] at hloop2
                by_cases hrate : cfg.frame_similarity_rate ≤
                    calculate_max_similarity ch rep.video_feature.video_hashes
                      cfg.frame_similar_distance
                · rw [if_pos hrate] at hloop2
                  simp only [Option.map_eq_some'] at hloop2
                  rcases hloop2 with ⟨g'', hjoin, rfl⟩
                  intro x hx
                  rcases List.mem_cons.mp hx with rfl | h
                  · exact tree_join_group_longest_first db vi rep g0 rest _ x
                      hvi hdb hg hjoin
                  · exact hgs x h
                · rw [if_neg hrate] at hloop2
                  simp only [Option.map_eq_some'] at hloop2
                  rcases hloop2 with ⟨gs', hgs', rfl⟩
                  intro x hx
                  rcases List.mem_cons.mp hx with rfl | h
                  · exact hg
                  · exact ih gs' hgs hgs' x h

theorem add_video_preserves_longest_first
    (analyzer db : String → Option VideoFileInfoResult) (cfg : VSTConfig)
    (H1 : ∀ p i, analyzer p = some i → i.file_index.file_path = p)
    (H2 : ∀ p i j, analyzer p = some i → db p = some j →
      j.video_feature.duration = i.video_feature.duration)
    (s s' : List (List VideoSimilarityNode)) (p : String)
    (hinv : longest_first db s)
    (hstep : add_video analyzer db cfg s p = some s') :
    longest_first db s' := by
  unfold add_video at hstep
  cases han : analyzer p with
  | none =>
      rw [han] at hstep
      injection hstep with h
      subst h
      exact hinv
  | some vi =>
      rw [han] at hstep
      have hstep' : compare_video_and_group db cfg vi s = some s' := hstep
      have hvi : ∀ j, db vi.file_index.file_path = some j →
          j.video_feature.duration = vi.video_feature.duration := by
        intro j hj
        rw [H1 p vi han] at hj
        exact H2 p vi j han hj
      unfold compare_video_and_group at hstep'
      by_cases hch : vi.video_feature.video_hashes = []
      · rw [if_pos hch] at hstep'
        injection hstep' with h
        subst h
        intro g hg
        rcases List.mem_append.mp hg with h | h
        · exact hinv g h
        · rcases List.mem_singleton.mp h with rfl
          exact group_longest_first_singleton db _
      · rw [if_neg hch] at hstep'
        exact compare_loop_preserves_longest_first db cfg vi _ hvi s s' hinv hstep'

/-- C4: in every tree state reachable by successful `add_video` calls (with
the analyzer and DB fixed for the run: the analyzer reports the queried
path, and both agree on each path's duration), the member at index 0 of
every group has a duration at least as large as that of every member of the
group. -/
theorem video_tree_representative_is_longest
    (analyzer db : String → Option VideoFileInfoResult) (cfg : VSTConfig)
    (H1 : ∀ p i, analyzer p = some i → i.file_index.file_path = p)
    (H2 : ∀ p i j, analyzer p = some i → db p = some j →
      j.video_feature.duration = i.video_feature.duration)
    (s : List (List VideoSimilarityNode))
    (hs : TreeReach analyzer db cfg s) :
    ∀ g ∈ s, ∀ g0 rest, g = g0 :: rest → ∀ m ∈ g, ∀ dh dm,
      db_duration db g0.path = some dh → db_duration db m.path = some dm →
      dm ≤ dh := by
  induction hs with
  | init => intro g hg; cases hg
  | step hreach hstep ih =>
      exact add_video_preserves_longest_first analyzer db cfg H1 H2 _ _ _ ih hstep

/-! ### Concrete fixtures for the video-tree witnesses -/

/-- Video "a": duration 2, fingerprint `[0]`. -/
def vidA : VideoFileInfoResult :=
  ⟨⟨some 1, "a", "a", "mda", 5⟩, ⟨some 1, "mda", [0], some 2⟩,
    "video_feature", 1⟩

/-- Video "b": duration 1, fingerprint `[0]` (a perfect fragment match of
"a"). -/
def vidB : VideoFileInfoResult :=
  ⟨⟨some 2, "b", "b", "mdb", 5⟩, ⟨some 2, "mdb", [0], some 1⟩,
    "video_feature", 1⟩

/-- A fixed analyzer/DB assignment for the witness runs: paths `"a"` and
`"b"` resolve to `vidA` and `vidB`, everything else is unknown. -/
def lookupAB (q : String) : Option VideoFileInfoResult :=
  if q = "a" then some vidA else if q = "b" then some vidB else none

/-- Tree configuration with the source defaults for distance (5) and rate
(0.7), and the duration pre-filter disabled (`max_duration_diff_ratio = 0`). -/
def cfgNoFilter : VSTConfig := ⟨5, 7/10, 0⟩

theorem lookupAB_path : ∀ p i, lookupAB p = some i →
    i.file_index.file_path = p := by
  intro p i h
  unfold lookupAB at h
  split_ifs at h with h1 h2
  · injection h with h'
    subst h'
    rw [h1]
    rfl
  · injection h with h'
    subst h'
    rw [h2]
    rfl

theorem add_video_lookupAB_a :
    add_video lookupAB lookupAB cfgNoFilter [] "a" = some [[⟨"a", 1⟩]] := by
  norm_num +decide [add_video, lookupAB, compare_video_and_group, vidA,
    compare_loop]

theorem add_video_lookupAB_b :
    add_video lookupAB lookupAB cfgNoFilter [[⟨"a", 1⟩]] "b"
      = some [[⟨"a", 1⟩, ⟨"b", 1⟩]] := by
  norm_num +decide [add_video, lookupAB, compare_video_and_group, vidA, vidB,
    compare_loop, duration_prefilter_skip, cfgNoFilter, tree_join_group,
    calculate_max_similarity, slideLoop, simCount, phashDist, hammingAux]

/-- Witness for the C4 theorem: after adding videos "a" (duration 2) and "b"
(duration 1) to the empty tree, the reachable state is
`[[node "a", node "b"]]`, and the theorem instantiated at member "b" yields
`1 ≤ 2`. -/
theorem video_tree_representative_is_longest_witness : (1 : ℚ) ≤ 2 :=
  video_tree_representative_is_longest lookupAB lookupAB cfgNoFilter
    lookupAB_path
    (fun _ i j hi hj => by rw [hi] at hj; injection hj with h; rw [h])
    [[⟨"a", 1⟩, ⟨"b", 1⟩]]
    (TreeReach.step (TreeReach.step TreeReach.init add_video_lookupAB_a)
      add_video_lookupAB_b)
    [⟨"a", 1⟩, ⟨"b", 1⟩] (List.mem_singleton.mpr rfl)
    ⟨"a", 1⟩ [⟨"b", 1⟩] rfl
    ⟨"b", 1⟩ (List.mem_cons_of_mem _ (List.mem_singleton.mpr rfl))
    2 1 rfl rfl

/-! ### C6: the video joins exactly the first matching group -/

/-- A group that the scan loop passes over without joining: its
representative lookup fails, or the duration pre-filter rejects it, or the
computed similarity is below `frame_similarity_rate`. -/
def tree_group_rejects (db : String → Option VideoFileInfoResult)
    (cfg : VSTConfig) (vi : VideoFileInfoResult) (ch : List Nat)
    (g : List VideoSimilarityNode) : Prop :=
  ∃ g0 rest, g = g0 :: rest ∧
    (db g0.path = none ∨
      ∃ rep, db g0.path = some rep ∧
        (duration_prefilter_skip cfg.max_duration_diff_rate
            vi.video_feature.duration rep.video_feature.duration = true ∨
          calculate_max_similarity ch rep.video_feature.video_hashes
              cfg.frame_similar_distance < cfg.frame_similarity_rate))

theorem compare_loop_skip (db : String → Option VideoFileInfoResult)
    (cfg : VSTConfig) (vi : VideoFileInfoResult) (ch : List Nat)
    (g : List VideoSimilarityNode) (gs : List (List VideoSimilarityNode))
    (hrej : tree_group_rejects db cfg vi ch g) :
    compare_loop db cfg vi ch (g :: gs)
      = (compare_loop db cfg vi ch gs).map (g :: ·) := by
  rcases hrej with ⟨g0, rest, rfl, hcase⟩
  rw [compare_loop_cons_eq]
  rcases hcase with hnone | ⟨rep, hrep, hcase2⟩
  · rw [hnone]
  · rw [hrep]
    show (if duration_prefilter_skip cfg.max_duration_diff_rate
          vi.video_feature.duration rep.video_feature.duration then
        (compare_loop db cfg vi ch gs).map ((g0 :: rest) :: ·)
      else
        if cfg.frame_similarity_rate ≤ calculate_max_similarity ch
            rep.video_feature.video_hashes cfg.frame_similar_distance then
          (tree_join_group vi rep g0 rest
            (calculate_max_similarity ch rep.video_feature.video_hashes
              cfg.frame_similar_distance)).map (· :: gs)
        else
          (compare_loop db cfg vi ch gs).map ((g0 :: rest) :: ·))
      = (compare_loop db cfg vi ch gs).map ((g0 :: rest) :: ·)
    rcases hcase2 with hskip | hsim
    · rw [if_pos hskip]
    · rw [if_neg (not_le.mpr hsim)]
      by_cases hskip : duration_prefilter_skip cfg.max_duration_diff_rate
          vi.video_feature.duration rep.video_feature.duration = true
      · rw [if_pos hskip]
      · rw [if_neg hskip]

theorem compare_loop_append_skips (db : String → Option VideoFileInfoResult)
    (cfg : VSTConfig) (vi : VideoFileInfoResult) (ch : List Nat) :
    ∀ (pre rest_groups : List (List VideoSimilarityNode)),
    (∀ gp ∈ pre, tree_group_rejects db cfg vi ch gp) →
    compare_loop db cfg vi ch (pre ++ rest_groups)
      = (compare_loop db cfg vi ch rest_groups).map (pre ++ ·) := by
  intro pre
  induction pre with
  | nil =>
      intro rest_groups _
      rw [List.nil_append]
      cases compare_loop db cfg vi ch rest_groups <;> rfl
  | cons g pre' ih =>
      intro rest_groups hrej
      rw [List.cons_append,
        compare_loop_skip db cfg vi ch g (pre' ++ rest_groups)
          (hrej g (List.mem_cons_self _ _)),
        ih rest_groups (fun x hx => hrej x (List.mem_cons_of_mem _ hx)),
        Option.map_map]
      have hfun : ((g :: ·) ∘ (pre' ++ ·) :
          List (List VideoSimilarityNode) → List (List VideoSimilarityNode))
          = ((g :: pre') ++ ·) := by
        funext l
        rw [Function.comp_apply, List.cons_append]
      rw [hfun]

/-- C6: when `add_video` reaches the first group whose representative yields
a similarity at or above `frame_similarity_rate` (all earlier groups having
been passed over), the video joins exactly that group and the scan stops:
the earlier groups and all later groups are returned unchanged.  If the new
video's duration strictly exceeds the representative's, the new node is
inserted at index 0 with similarity `1.0` and the old representative's
similarity is overwritten with the computed value; otherwise the new node is
appended carrying the computed similarity. -/
theorem video_joins_first_matching_group
    (analyzer db : String → Option VideoFileInfoResult) (cfg : VSTConfig)
    (p : String) (vi rep : VideoFileInfoResult)
    (pre gs : List (List VideoSimilarityNode))
    (g0 : VideoSimilarityNode) (rest : List VideoSimilarityNode)
    (dn dr : ℚ)
    (han : analyzer p = some vi)
    (hch : vi.video_feature.video_hashes ≠ [])
    (hpre : ∀ gp ∈ pre, tree_group_rejects db cfg vi
      vi.video_feature.video_hashes gp)
    (hrep : db g0.path = some rep)
    (hskip : duration_prefilter_skip cfg.max_duration_diff_rate
      vi.video_feature.duration rep.video_feature.duration = false)
    (hsim : cfg.frame_similarity_rate ≤ calculate_max_similarity
      vi.video_feature.video_hashes rep.video_feature.video_hashes
      cfg.frame_similar_distance)
    (hdn : vi.video_feature.duration = some dn)
    (hdr : rep.video_feature.duration = some dr) :
    add_video analyzer db cfg (pre ++ (g0 :: rest) :: gs) p
      = some (pre ++
          (if dr < dn then
            ⟨vi.file_index.file_path, 1⟩ ::
              ⟨g0.path, calculate_max_similarity vi.video_feature.video_hashes
                rep.video_feature.video_hashes cfg.frame_similar_distance⟩
              :: rest
          else
            (g0 :: rest) ++ [⟨vi.file_index.file_path,
              calculate_max_similarity vi.video_feature.video_hashes
                rep.video_feature.video_hashes cfg.frame_similar_distance⟩])
          :: gs) := by
  unfold add_video
  rw [han]
  show compare_video_and_group db cfg vi (pre ++ (g0 :: rest) :: gs) = _
  unfold compare_video_and_group
  rw [if_neg hch,
    compare_loop_append_skips db cfg vi vi.video_feature.video_hashes pre
      ((g0 :: rest) :: gs) hpre,
    compare_loop_cons_eq, hrep]
  have hjoin : tree_join_group vi rep g0 rest
      (calculate_max_similarity vi.video_feature.video_hashes
        rep.video_feature.video_hashes cfg.frame_similar_distance)
      = some (if dr < dn then
          ⟨vi.file_index.file_path, 1⟩ ::
            ⟨g0.path, calculate_max_similarity vi.video_feature.video_hashes
              rep.video_feature.video_hashes cfg.frame_similar_distance⟩
            :: rest
        else
          (g0 :: rest) ++ [⟨vi.file_index.file_path,
            calculate_max_similarity vi.video_feature.video_hashes
              rep.video_feature.video_hashes cfg.frame_similar_distance⟩]) := by
    unfold tree_join_group
    rw [hdn, hdr]
  show ((if duration_prefilter_skip cfg.max_duration_diff_rate
        vi.video_feature.duration rep.video_feature.duration then
      (compare_loop db cfg vi vi.video_feature.video_hashes gs).map
        ((g0 :: rest) :: ·)
    else
      if cfg.frame_similarity_rate ≤ calculate_max_similarity
          vi.video_feature.video_hashes rep.video_feature.video_hashes
          cfg.frame_similar_distance then
        (tree_join_group vi rep g0 rest
          (calculate_max_similarity vi.video_feature.video_hashes
            rep.video_feature.video_hashes cfg.frame_similar_distance)).map
          (· :: gs)
      else
        (compare_loop db cfg vi vi.video_feature.video_hashes gs).map
          ((g0 :: rest) :: ·)).map (pre ++ ·)) = _
  rw [if_neg (by rw [hskip]; exact Bool.false_ne_true), if_pos hsim, hjoin]
  rfl

/-- Witness for the C6 theorem: adding video "b" (duration 1) to the state
whose only group is led by "a" (duration 2, perfect fragment match) appends
"b" to that group with its computed similarity 1. -/
theorem video_joins_first_matching_group_witness :
    add_video lookupAB lookupAB cfgNoFilter [[⟨"a", 1⟩]] "b"
      = some [[⟨"a", 1⟩, ⟨"b", 1⟩]] := by
  have h := video_joins_first_matching_group lookupAB lookupAB cfgNoFilter "b"
    vidB vidA [] [] ⟨"a", 1⟩ [] 1 2 rfl (by decide)
    (fun gp hgp => absurd hgp (List.not_mem_nil gp))
    rfl
    (by norm_num [duration_prefilter_skip, cfgNoFilter, vidA, vidB])
    (by
      rw [show vidB.video_feature.video_hashes = [0] from rfl,
        show vidA.video_feature.video_hashes = [0] from rfl]
      rw [calculate_max_similarity, if_neg (by simp)]
      norm_num [cfgNoFilter, slideLoop, simCount, phashDist, hammingAux])
    rfl rfl
  have hsim1 : calculate_max_similarity vidB.video_feature.video_hashes
      vidA.video_feature.video_hashes cfgNoFilter.frame_similar_distance
      = 1 := by
    rw [show vidB.video_feature.video_hashes = [0] from rfl,
      show vidA.video_feature.video_hashes = [0] from rfl,
      calculate_max_similarity, if_neg (by simp)]
    norm_num [cfgNoFilter, slideLoop, simCount, phashDist, hammingAux]
  rw [hsim1, if_neg (by norm_num : ¬(2 : ℚ) < 1)] at h
  simpa using h

/-! ### C7: the duration pre-filter rejects a group before any comparison -/

theorem compare_loop_keeps_prefiltered_group
    (db : String → Option VideoFileInfoResult) (cfg : VSTConfig)
    (vi : VideoFileInfoResult) (ch : List Nat) (g0 : VideoSimilarityNode)
    (rest : List VideoSimilarityNode)
    (hskip : ∀ rep, db g0.path = some rep →
      duration_prefilter_skip cfg.max_duration_diff_rate
        vi.video_feature.duration rep.video_feature.duration = true) :
    ∀ (video_groups : List (List VideoSimilarityNode)) (k : Nat)
      (gs' : List (List VideoSimilarityNode)),
    video_groups[k]? = some (g0 :: rest) →
    compare_loop db cfg vi ch video_groups = some gs' →
    gs'[k]? = some (g0 :: rest) := by
  intro video_groups
  induction video_groups with
  | nil => intro k gs' hk; simp at hk
  | cons g gs ih =>
      intro k gs' hk hloop
      cases g with
      | nil =>
          cases k with
          | zero =>
              rw [List.getElem?_cons_zero] at hk
              injection hk with hk
              cases hk
          | succ k' => cases hloop
      | cons h0 hrest =>
          rw [compare_loop_cons_eq] at hloop
          cases k with
          | zero =>
              rw [List.getElem?_cons_zero] at hk
              injection hk with hk
              cases hk
              cases hdb : db g0.path with
              | none =>
                  rw [hdb] at hloop
                  have hloop2 : (compare_loop db cfg vi ch gs).map
                      ((g0 :: rest) :: ·) = some gs' := hloop
                  rcases Option.map_eq_some'.mp hloop2 with ⟨gs2, _, rfl⟩
                  rw [List.getElem?_cons_zero]
              | some rep =>
                  rw [hdb] at hloop
                  have hloop2 : (if duration_prefilter_skip
                        cfg.max_duration_diff_rate vi.video_feature.duration
                        rep.video_feature.duration then
                      (compare_loop db cfg vi ch gs).map ((g0 :: rest) :: ·)
                    else
                      if cfg.frame_similarity_rate ≤ calculate_max_similarity
                          ch rep.video_feature.video_hashes
                          cfg.frame_similar_distance then
                        (tree_join_group vi rep g0 rest
                          (calculate_max_similarity ch
                            rep.video_feature.video_hashes
                            cfg.frame_similar_distance)).map (· :: gs)
                      else
                        (compare_loop db cfg vi ch gs).map ((g0 :: rest) :: ·))
                      = some gs' := hloop
                  rw [if_pos (hskip rep hdb)] at hloop2
                  rcases Option.map_eq_some'.mp hloop2 with ⟨gs2, _, rfl⟩
                  rw [List.getElem?_cons_zero]
          | succ k' =>
              rw [List.getElem?_cons_succ] at hk
              cases hdb : db h0.path with
              | none =>
                  rw [hdb] at hloop
                  have hloop2 : (compare_loop db cfg vi ch gs).map
                      ((h0 :: hrest) :: ·) = some gs' := hloop
                  rcases Option.map_eq_some'.mp hloop2 with ⟨gs2, hgs2, rfl⟩
                  rw [List.getElem?_cons_succ]
                  exact ih k' gs2 hk hgs2
              | some rep =>
                  rw [hdb] at hloop
                  have hloop2 : (if duration_prefilter_skip
                        cfg.max_duration_diff_rate vi.video_feature.duration
                        rep.video_feature.duration then
                      (compare_loop db cfg vi ch gs).map ((h0 :: hrest) :: ·)
                    else
                      if cfg.frame_similarity_rate ≤ calculate_max_similarity
                          ch rep.video_feature.video_hashes
                          cfg.frame_similar_distance then
                        (tree_join_group vi rep h0 hrest
                          (calculate_max_similarity ch
                            rep.video_feature.video_hashes
                            cfg.frame_similar_distance)).map (· :: gs)
                      else
                        (compare_loop db cfg vi ch gs).map
                          ((h0 :: hrest) :: ·))
                      = some gs' := hloop
                  by_cases hsk : duration_prefilter_skip
                      cfg.max_duration_diff_rate vi.video_feature.duration
                      rep.video_feature.duration = true
                  · rw [if_pos hsk] at hloop2
                    rcases Option.map_eq_some'.mp hloop2 with ⟨gs2, hgs2, rfl⟩
                    rw [List.getElem?_cons_succ]
                    exact ih k' gs2 hk hgs2
                  · rw [if_neg hsk] at hloop2
                    by_cases hrate : cfg.frame_similarity_rate ≤
                        calculate_max_similarity ch
                          rep.video_feature.video_hashes
                          cfg.frame_similar_distance
                    · rw [if_pos hrate] at hloop2
                      rcases Option.map_eq_some'.mp hloop2 with ⟨g'', _, rfl⟩
                      rw [List.getElem?_cons_succ]
                      exact hk
                    · rw [if_neg hrate] at hloop2
                      rcases Option.map_eq_some'.mp hloop2 with ⟨gs2, hgs2, rfl⟩
                      rw [List.getElem?_cons_succ]
                      exact ih k' gs2 hk hgs2

/-- C7: during `add_video`, a group whose representative fails the duration
pre-filter (positive configured ratio, both durations known, and
`min(d1,d2)/max(d1,d2)` strictly below the ratio, the maximum being
positive) is skipped before any fingerprint comparison: the pre-filter
decides the skip — in `compare_loop` the similarity is only ever computed in
the pre-filter's else-branch — and the group is returned unchanged at its
position, so the video does not join it. -/
theorem video_tree_duration_prefilter_skips
    (analyzer db : String → Option VideoFileInfoResult) (cfg : VSTConfig)
    (p : String) (vi rep : VideoFileInfoResult) (k : Nat)
    (g0 : VideoSimilarityNode) (rest : List VideoSimilarityNode) (d1 d2 : ℚ)
    (video_groups : List (List VideoSimilarityNode))
    (han : analyzer p = some vi)
    (hd1 : vi.video_feature.duration = some d1)
    (hrep : db g0.path = some rep)
    (hd2 : rep.video_feature.duration = some d2)
    (hrat : 0 < cfg.max_duration_diff_rate)
    (hmax : 0 < max d1 d2)
    (hlt : min d1 d2 / max d1 d2 < cfg.max_duration_diff_rate)
    (hk : video_groups[k]? = some (g0 :: rest)) :
    duration_prefilter_skip cfg.max_duration_diff_rate
        vi.video_feature.duration rep.video_feature.duration = true ∧
    ∀ s', add_video analyzer db cfg video_groups p = some s' →
      s'[k]? = some (g0 :: rest) := by
  have hskip : duration_prefilter_skip cfg.max_duration_diff_rate
      vi.video_feature.duration rep.video_feature.duration = true := by
    unfold duration_prefilter_skip
    rw [if_pos hrat, hd1, hd2]
    show decide (0 < (if d1 < d2 then d2 else d1) ∧
        (if d1 < d2 then d1 else d2) / (if d1 < d2 then d2 else d1)
          < cfg.max_duration_diff_rate) = true
    apply decide_eq_true
    rcases lt_or_le d1 d2 with hc | hc
    · rw [min_eq_left hc.le] at hlt
      rw [max_eq_right hc.le] at hlt hmax
      rw [if_pos hc, if_pos hc]
      exact ⟨hmax, hlt⟩
    · rw [min_eq_right hc] at hlt
      rw [max_eq_left hc] at hlt hmax
      rw [if_neg (not_lt.mpr hc), if_neg (not_lt.mpr hc)]
      exact ⟨hmax, hlt⟩
  refine ⟨hskip, ?_⟩
  intro s' hstep
  unfold add_video at hstep
  rw [han] at hstep
  have hstep' : compare_video_and_group db cfg vi video_groups = some s' :=
    hstep
  unfold compare_video_and_group at hstep'
  by_cases hch : vi.video_feature.video_hashes = []
  · rw [if_pos hch] at hstep'
    injection hstep' with h
    subst h
    have hklen : k < video_groups.length := by
      rcases List.getElem?_eq_some.mp hk with ⟨hlen, _⟩
      exact hlen
    rw [List.getElem?_append, if_pos hklen]
    exact hk
  · rw [if_neg hch] at hstep'
    exact compare_loop_keeps_prefiltered_group db cfg vi
      vi.video_feature.video_hashes g0 rest
      (fun rep' hrep' => by
        rw [hrep] at hrep'
        injection hrep' with e
        rw [← e]
        exact hskip)
      video_groups k s' hk hstep'

/-- Video "c": duration 100 (wildly longer than "d"). -/
def vidC : VideoFileInfoResult :=
  ⟨⟨some 3, "c", "c", "mdc", 5⟩, ⟨some 3, "mdc", [0], some 100⟩,
    "video_feature", 1⟩

/-- Video "d": duration 1. -/
def vidD : VideoFileInfoResult :=
  ⟨⟨some 4, "d", "d", "mdd", 5⟩, ⟨some 4, "mdd", [0], some 1⟩,
    "video_feature", 1⟩

/-- Analyzer/DB assignment for the pre-filter witness. -/
def lookupCD (q : String) : Option VideoFileInfoResult :=
  if q = "c" then some vidC else if q = "d" then some vidD else none

/-- Configuration with the pre-filter enabled
(`max_duration_diff_ratio = 0.6`, the source default). -/
def cfgFilter : VSTConfig := ⟨5, 7/10, 3/5⟩

theorem add_video_lookupCD_d :
    add_video lookupCD lookupCD cfgFilter [[⟨"c", 1⟩]] "d"
      = some [[⟨"c", 1⟩], [⟨"d", 1⟩]] := by
  norm_num +decide [add_video, lookupCD, compare_video_and_group, vidC, vidD,
    compare_loop, duration_prefilter_skip, cfgFilter]

/-- Witness for the C7 theorem: video "d" (duration 1) against the group led
by "c" (duration 100) with ratio 0.6: the pre-filter fires and the group at
index 0 survives unchanged in the post-state (where "d" opened a new group). -/
theorem video_tree_duration_prefilter_skips_witness :
    duration_prefilter_skip cfgFilter.max_duration_diff_rate
        vidD.video_feature.duration vidC.video_feature.duration = true ∧
    ([[⟨"c", 1⟩], [⟨"d", 1⟩]] : List (List VideoSimilarityNode))[0]?
      = some [⟨"c", 1⟩] := by
  have h := video_tree_duration_prefilter_skips lookupCD lookupCD cfgFilter
    "d" vidD vidC 0 ⟨"c", 1⟩ [] 1 100 [[⟨"c", 1⟩]]
    rfl rfl rfl rfl
    (by norm_num [cfgFilter])
    (by norm_num)
    (by norm_num [cfgFilter])
    rfl
  exact ⟨h.1, h.2 _ add_video_lookupCD_d⟩

/-! ### C1: every emitted duplicate group has at least two members -/

/-- C1: for every checker state, every group emitted by
`MD5Checker.get_results`, `ImageChecker.get_results` and
`VideoSimilarityTree.get_similar_video_groups` (at its default
`min_group_size = 2`) — and hence every group in the dispatcher's
concatenated `get_all_results()` — has at least two members; a singleton
group is never emitted. -/
theorem emitted_groups_have_at_least_two_members :
    (∀ (md5_groups : List (String × List FileIndexDBModel)),
      ∀ g ∈ md5_get_results md5_groups, 2 ≤ g.files.length) ∧
    (∀ (threshold : Nat) (data : List ImageData),
      ∀ g ∈ image_get_results threshold data, 2 ≤ g.file_ids.length) ∧
    (∀ (db : String → Option VideoFileInfoResult)
        (video_groups : List (List VideoSimilarityNode)),
      ∀ G ∈ get_similar_video_groups db video_groups 2, 2 ≤ G.length) := by
  refine ⟨?_, ?_, ?_⟩
  · intro md5_groups g hg
    unfold md5_get_results at hg
    rcases List.mem_filterMap.mp hg with ⟨b, _, hsome⟩
    by_cases hlen : 1 < b.2.length
    · rw [if_pos hlen] at hsome
      injection hsome with hsome
      subst hsome
      simp only [List.length_map]
      omega
    · rw [if_neg hlen] at hsome
      cases hsome
  · intro threshold data g hg
    unfold image_get_results at hg
    rcases List.mem_map.mp hg with ⟨q, hq, rfl⟩
    have hq2 : q.2 ∈ image_duplicate_index_groups threshold data := by
      rw [List.enum_eq_zip_range] at hq
      exact (List.of_mem_zip hq).2
    have hlen := imageOuterScan_len threshold data _ _ q.2 hq2
    simp only [List.length_map]
    omega
  · intro db video_groups G hG
    unfold get_similar_video_groups at hG
    rcases List.mem_filterMap.mp hG with ⟨g, _, hsome⟩
    by_cases hlen : 2 ≤ g.length
    · rw [if_pos hlen] at hsome
      by_cases hlen2 : 2 ≤ (collect_infos db g).length
      · rw [if_pos hlen2] at hsome
        injection hsome with hsome
        subst hsome
        exact hlen2
      · rw [if_neg hlen2] at hsome
        cases hsome
    · rw [if_neg hlen] at hsome
      cases hsome

/-- First file of the C1 MD5 witness bucket. -/
def fMd5A : FileIndexDBModel := ⟨some 1, "p1", "n1", "aa", 3⟩

/-- Second file of the C1 MD5 witness bucket (same MD5 `"aa"`). -/
def fMd5B : FileIndexDBModel := ⟨some 2, "p2", "n2", "aa", 4⟩

/-- Witness for the C1 theorem: the concrete two-member groups produced by
each checker on small populations all satisfy the bound. -/
theorem emitted_groups_have_at_least_two_members_witness :
    2 ≤ (DuplicateGroupDBModel.mk "aa"
      [⟨some 1, SimilarityTypeMD5, 1⟩, ⟨some 2, SimilarityTypeMD5, 1⟩]).files.length ∧
    2 ≤ (DuplicateGroupDBModule.mk "img_sim_1" [some 1, some 2]).file_ids.length ∧
    2 ≤ ([vidA, vidB] : List VideoFileInfoResult).length :=
  ⟨emitted_groups_have_at_least_two_members.1 [("aa", [fMd5A, fMd5B])] _
    (List.mem_singleton.mpr rfl),
   emitted_groups_have_at_least_two_members.2.1 0 [imgD, imgE] _
    (List.mem_singleton.mpr rfl),
   emitted_groups_have_at_least_two_members.2.2 lookupAB
    [[⟨"a", 1⟩, ⟨"b", 1⟩]] _ (List.mem_singleton.mpr rfl)⟩
